import Mathlib

/-!
Shallow embedding of the spatial indexing and visibility subsystem of the
macroquad tiled-map clone (sources: `src/spatial/index.rs`, `src/render/cull.rs`,
`src/map.rs`), together with theorems settling the frozen claims about it.

Modelling conventions:
* Rust `f32` world coordinates are modelled as `ℚ`; the `as i32` cast
  (truncation toward zero, exact for the in-range values relevant here) is
  `truncQ`.
* Rust `u32` / `u16` / `usize` values are modelled as `ℕ` with explicit bounds
  where wrapping matters; `i32` chunk coordinates are `ℤ` (no arithmetic in the
  embedded code brings them near overflow).
* Rust `HashMap` containers are modelled as association lists with the usual
  `entry(..).or_default()` semantics (`lookupA` / `updateA`); iteration order of
  a `HashMap` is arbitrary, which the culling theorems account for by proving
  permutation invariance of the sorted output.
-/

namespace Tiled

/-! ### Chunk addressing (`src/spatial/index.rs`) -/

/-- Models `pub const CHUNK_SIZE: i32 = 256`. -/
def CHUNK_SIZE : Int := 256

/-- Models `macroquad::Vec2` world positions exactly, over `ℚ`. -/
structure Vec2 where
  x : ℚ
  y : ℚ
deriving DecidableEq, Repr

/-- Componentwise vector addition (`Vec2 + Vec2` in the source). -/
def Vec2.add (a b : Vec2) : Vec2 := ⟨a.x + b.x, a.y + b.y⟩

/-- Models the Rust `as i32` cast of an `f32`: truncation toward zero
(exact for in-range values, which is all the embedded code uses). -/
def truncQ (q : ℚ) : Int := q.num.tdiv q.den

/-- Componentwise truncation of a position to integer coordinates. -/
def vtrunc (p : Vec2) : Vec2 := ⟨(truncQ p.x : Int), (truncQ p.y : Int)⟩

/-- Models `ChunkCoord { x: i32, y: i32 }`. -/
structure ChunkCoord where
  x : Int
  y : Int
deriving DecidableEq, Repr

/-- Models `world_to_chunk`: componentwise `(p as i32).div_euclid(CHUNK_SIZE)`. -/
def world_to_chunk (p : Vec2) : ChunkCoord :=
  { x := (truncQ p.x).ediv CHUNK_SIZE
    y := (truncQ p.y).ediv CHUNK_SIZE }

/-- Models `rel`: componentwise `(p as i32).rem_euclid(CHUNK_SIZE) as f32`. -/
def rel (p : Vec2) : Vec2 :=
  { x := ((truncQ p.x).emod CHUNK_SIZE : Int)
    y := ((truncQ p.y).emod CHUNK_SIZE : Int) }

/-- Models the chunk-origin computation `vec2((cc.x * CHUNK_SIZE) as f32,
(cc.y * CHUNK_SIZE) as f32)` used throughout `map.rs`. -/
def chunkOrigin (cc : ChunkCoord) : Vec2 :=
  ⟨((cc.x * CHUNK_SIZE : Int) : ℚ), ((cc.y * CHUNK_SIZE : Int) : ℚ)⟩

/-! ### Identifier codec (`src/spatial/index.rs`) -/

/-- Models `pub const FLIP_H: u32 = 0x8000_0000` (bit 31). -/
def FLIP_H : Nat := 0x80000000

/-- Models `pub const FLIP_V: u32 = 0x4000_0000` (bit 30). -/
def FLIP_V : Nat := 0x40000000

/-- Models `pub const FLIP_D: u32 = 0x2000_0000` (bit 29). -/
def FLIP_D : Nat := 0x20000000

/-- Models `pub const GID_MASK: u32 = 0x1FFF_FFFF` (lower 29 bits). -/
def GID_MASK : Nat := 0x1FFFFFFF

/-- Models `TileId(pub u32)`: a raw, possibly flag-encoded, tile identifier. -/
structure TileId where
  raw : Nat
deriving DecidableEq, Repr

/-- Models `TileId::clean`: `self.0 & GID_MASK`. -/
def TileId.clean (t : TileId) : Nat := t.raw &&& GID_MASK

/-- Models `TileId::flip_h`: `(self.0 & FLIP_H) != 0`. -/
def TileId.flip_h (t : TileId) : Bool := decide (t.raw &&& FLIP_H ≠ 0)

/-- Models `TileId::flip_v`: `(self.0 & FLIP_V) != 0`. -/
def TileId.flip_v (t : TileId) : Bool := decide (t.raw &&& FLIP_V ≠ 0)

/-- Models `TileId::flip_d`: `(self.0 & FLIP_D) != 0`. -/
def TileId.flip_d (t : TileId) : Bool := decide (t.raw &&& FLIP_D ≠ 0)

/-! ### Flip/rotation parameter derivation (`Map::params_for_flips_gid`) -/

/-- Models `Map::params_for_flips_gid`.  The returned rotation is in units of
π radians, so the source's `0.0`, `FRAC_PI_2` and `PI` become `0`, `1/2` and
`1` respectively (the source values are exact `f32` multiples of π only up to
float representation of π; the match structure is reproduced verbatim). -/
def params_for_flips_gid (gid : TileId) (tile_w tile_h : ℚ) :
    ℚ × Bool × Bool × Option Vec2 :=
  let h := gid.flip_h
  let v := gid.flip_v
  let d := gid.flip_d
  let flip_x := xor h d
  let flip_y := v
  let pivot : Option Vec2 := some ⟨tile_w / 2, tile_h / 2⟩
  let rotation : ℚ :=
    match h, v, d with
    | false, _, _ => 0
    | true, false, false => 1/2
    | true, false, true => 1/2
    | true, true, false => 1/2
    | true, true, true => 1
  (rotation, flip_x, flip_y, pivot)

/-! ### Tileset resolution table (`Map::from_ir`, `Map::ts_for_gid_from`) -/

/-- Models the fields of `TilesetInfo` that gid resolution reads
(`first_gid`, `tilecount`); texture/atlas-geometry fields are irrelevant to
the resolution claims and omitted. -/
structure TilesetInfo where
  first_gid : Nat
  tilecount : Nat
deriving DecidableEq, Repr

/-- Models the `u16::MAX` sentinel filling unmapped `gid_lut` entries. -/
def SENTINEL : Nat := 65535

/-- Models the `max_gid` fold in `Map::from_ir`:
`max_gid = max_gid.max(first_gid + tilecount - 1)` starting from `0`
(the subtraction is `ℕ`-truncated; the theorems assume `tilecount ≥ 1`,
where Rust `u32` arithmetic agrees). -/
def maxGid (tilesets : List TilesetInfo) : Nat :=
  tilesets.foldl (fun m t => max m (t.first_gid + t.tilecount - 1)) 0

/-- Models the inner loop `for gid in first_gid..(first_gid + tilecount)
{ gid_lut[gid as usize] = i as u16 }` writing `count` entries from `start`. -/
def writeRange (lut : List Nat) (start count idx : Nat) : List Nat :=
  match count with
  | 0 => lut
  | c + 1 => writeRange (lut.set start idx) (start + 1) c idx

/-- Models the enumerated tileset loop of `Map::from_ir` that fills the
lookup table, with `i` the running tileset index. -/
def writeTilesets (lut : List Nat) (i : Nat) : List TilesetInfo → List Nat
  | [] => lut
  | t :: rest => writeTilesets (writeRange lut t.first_gid t.tilecount i) (i + 1) rest

/-- Models the full `gid_lut` construction:
`vec![u16::MAX; (max_gid + 1) as usize]` then the enumerated write loop. -/
def buildGidLut (tilesets : List TilesetInfo) : List Nat :=
  writeTilesets (List.replicate (maxGid tilesets + 1) SENTINEL) 0 tilesets

/-- Models `Map::ts_for_gid_from`.  The source indexes `tilesets[idx]`
directly, which under the construction invariant is always in bounds; the
out-of-bounds arm (`none` here, a panic in Rust) is unreachable in every
theorem below. -/
def ts_for_gid_from (gid : TileId) (gid_lut : List Nat)
    (tilesets : List TilesetInfo) : Option (TilesetInfo × Nat) :=
  let clean := gid.clean
  if gid_lut.length ≤ clean then none
  else
    let idx := gid_lut.getD clean SENTINEL
    if idx = SENTINEL then none
    else
      match tilesets.get? idx with
      | none => none
      | some ts => some (ts, clean - ts.first_gid)

/-- Convenience predicate: tileset `t` claims gid `j`
(that is, `first_gid ≤ j < first_gid + tilecount`). -/
def covers (t : TilesetInfo) (j : Nat) : Prop :=
  t.first_gid ≤ j ∧ j < t.first_gid + t.tilecount

/-- Two tilesets have non-overlapping identifier ranges. -/
def tsDisjoint (a b : TilesetInfo) : Prop :=
  a.first_gid + a.tilecount ≤ b.first_gid ∨
  b.first_gid + b.tilecount ≤ a.first_gid

instance (t : TilesetInfo) (j : Nat) : Decidable (covers t j) :=
  inferInstanceAs (Decidable (t.first_gid ≤ j ∧ j < t.first_gid + t.tilecount))

instance (a b : TilesetInfo) : Decidable (tsDisjoint a b) :=
  inferInstanceAs (Decidable (a.first_gid + a.tilecount ≤ b.first_gid ∨
    b.first_gid + b.tilecount ≤ a.first_gid))

/-! ### Global spatial index (`src/spatial/index.rs`) -/

/-- Models `TileRec { handle, id, rel_pos }`. -/
structure TileRec where
  handle : Nat
  id : TileId
  rel_pos : Vec2
deriving DecidableEq, Repr

/-- Models `ObjectRec { handle, rel_pos }` (`ObjectHandle` is its `u32`). -/
structure ObjectRec where
  handle : Nat
  rel_pos : Vec2
deriving DecidableEq, Repr

/-- Models `LayerBucket { tiles, objects }`. -/
structure LayerBucket where
  tiles : List TileRec
  objects : List ObjectRec
deriving DecidableEq, Repr

/-- Models `LayerBucket::default()`. -/
def LayerBucket.empty : LayerBucket := ⟨[], []⟩

/-- Models `LayerIdx = u16`. -/
abbrev LayerIdx := Nat

/-- Models `GlobalChunk { layers: HashMap<LayerIdx, LayerBucket> }` as an
association list. -/
structure GlobalChunk where
  layers : List (LayerIdx × LayerBucket)
deriving DecidableEq, Repr

/-- Models `GlobalChunk::new()`. -/
def GlobalChunk.new : GlobalChunk := ⟨[]⟩

/-- Models `TileLoc { chunk, layer, index }`. -/
structure TileLoc where
  chunk : ChunkCoord
  layer : LayerIdx
  index : Nat
deriving DecidableEq, Repr

/-- Models `GlobalIndex { buckets, handles, next_handle }`. -/
structure GlobalIndex where
  buckets : List (ChunkCoord × GlobalChunk)
  handles : List (Option TileLoc)
  next_handle : Nat
deriving DecidableEq, Repr

/-- Models `GlobalIndex::new()`. -/
def GlobalIndex.new : GlobalIndex := ⟨[], [], 0⟩

/-- Association-list lookup, modelling `HashMap::get`. -/
def lookupA {K V : Type} [DecidableEq K] (k : K) : List (K × V) → Option V
  | [] => none
  | (k', v) :: rest => if k' = k then some v else lookupA k rest

/-- Association-list upsert, modelling `HashMap::entry(k).or_default()`
followed by a mutation `f` of the entry's value. -/
def updateA {K V : Type} [DecidableEq K] (k : K) (dflt : V) (f : V → V) :
    List (K × V) → List (K × V)
  | [] => [(k, f dflt)]
  | (k', v) :: rest =>
      if k' = k then (k', f v) :: rest else (k', v) :: updateA k dflt f rest

/-- The tile list currently stored for `(cc, layer)` (empty if the chunk or
layer bucket does not exist yet), as read by `add_tile` before pushing. -/
def currentTiles (g : GlobalIndex) (cc : ChunkCoord) (layer : LayerIdx) :
    List TileRec :=
  match lookupA cc g.buckets with
  | none => []
  | some ch =>
    match lookupA layer ch.layers with
    | none => []
    | some b => b.tiles

/-- Models `GlobalIndex::add_tile` (including the inlined `alloc_handle`):
computes the chunk coordinate, allocates the next handle (pushing a `None`
slot), appends a tile record at slot `tiles.len()`, then records the
handle's location descriptor at the handle's own index. -/
def GlobalIndex.add_tile (g : GlobalIndex) (id : TileId) (layer : LayerIdx)
    (world : Vec2) : GlobalIndex × Nat :=
  let cc := world_to_chunk world
  let handle := g.next_handle
  let handles₀ := g.handles ++ [none]
  let idx := (currentTiles g cc layer).length
  let newRec : TileRec := ⟨handle, id, rel world⟩
  let buckets :=
    updateA cc GlobalChunk.new
      (fun ch =>
        ⟨updateA layer LayerBucket.empty
          (fun b => ⟨b.tiles ++ [newRec], b.objects⟩) ch.layers⟩)
      g.buckets
  let handles := handles₀.set handle (some ⟨cc, layer, idx⟩)
  ({ buckets := buckets, handles := handles, next_handle := handle + 1 }, handle)

/-- Models `GlobalIndex::insert_object`: appends the pre-computed record to
the specified chunk/layer's object bucket, creating structures as needed. -/
def GlobalIndex.insert_object (g : GlobalIndex) (layer : LayerIdx)
    (chunk : ChunkCoord) (object_rec : ObjectRec) : GlobalIndex :=
  { g with
    buckets :=
      updateA chunk GlobalChunk.new
        (fun ch =>
          ⟨updateA layer LayerBucket.empty
            (fun b => ⟨b.tiles, b.objects ++ [object_rec]⟩) ch.layers⟩)
        g.buckets }

/-- Runs a sequence of `add_tile` calls, collecting the returned handles. -/
def runAddTiles (g : GlobalIndex) :
    List (TileId × LayerIdx × Vec2) → GlobalIndex × List Nat
  | [] => (g, [])
  | (id, layer, w) :: rest =>
    let out := g.add_tile id layer w
    let outRest := runAddTiles out.1 rest
    (outRest.1, out.2 :: outRest.2)

/-- The handle named by the location descriptor `loc`, if `loc` resolves to a
recorded tile: `buckets[loc.chunk].layers[loc.layer].tiles[loc.index].handle`. -/
def recordHandleAt (g : GlobalIndex) (loc : TileLoc) : Option Nat :=
  match lookupA loc.chunk g.buckets with
  | none => none
  | some ch =>
    match lookupA loc.layer ch.layers with
    | none => none
    | some b => (b.tiles.get? loc.index).map TileRec.handle

/-- The handle-table invariant of `GlobalIndex`: the next-handle counter
equals the table length, and the descriptor stored at every allocated
handle's own index resolves to a tile record carrying that same handle. -/
def HandleInv (g : GlobalIndex) : Prop :=
  g.next_handle = g.handles.length ∧
  ∀ h : Nat, h < g.handles.length →
    ∃ loc : TileLoc, g.handles.getD h none = some loc ∧
      recordHandleAt g loc = some h

/-- A two-insertion scenario for the C9 witness: two tiles in different
chunks. -/
def demoAddOps : List (TileId × LayerIdx × Vec2) :=
  [(⟨1⟩, 0, ⟨10, 10⟩), (⟨2⟩, 0, ⟨300, 10⟩)]

/-! ### Visibility query (`src/render/cull.rs`) -/

/-- Models `const CULL_MARGIN_CHUNKS: i32 = 1`. -/
def CULL_MARGIN_CHUNKS : Int := 1

/-- The inclusive chunk rectangle computed by `query_visible_rect`. -/
structure CullBounds where
  cx_min : Int
  cy_min : Int
  cx_max : Int
  cy_max : Int
deriving DecidableEq, Repr

/-- Models the bound computation of `query_visible_rect`: convert the two
corners with `as i32` + `div_euclid(CHUNK_SIZE)`, swap each axis if the
caller passed the corners reversed, then expand by `CULL_MARGIN_CHUNKS`. -/
def cullBounds (view_min view_max : Vec2) : CullBounds :=
  let cx_min := (truncQ view_min.x).ediv CHUNK_SIZE
  let cy_min := (truncQ view_min.y).ediv CHUNK_SIZE
  let cx_max := (truncQ view_max.x).ediv CHUNK_SIZE
  let cy_max := (truncQ view_max.y).ediv CHUNK_SIZE
  let (cx_min, cx_max) := if cx_max < cx_min then (cx_max, cx_min) else (cx_min, cx_max)
  let (cy_min, cy_max) := if cy_max < cy_min then (cy_max, cy_min) else (cy_min, cy_max)
  { cx_min := cx_min - CULL_MARGIN_CHUNKS
    cy_min := cy_min - CULL_MARGIN_CHUNKS
    cx_max := cx_max + CULL_MARGIN_CHUNKS
    cy_max := cy_max + CULL_MARGIN_CHUNKS }

/-- Models the retention test of the scan loop:
`coord.x >= cx_min && coord.x <= cx_max && coord.y >= cy_min && coord.y <= cy_max`. -/
def inCullRect (b : CullBounds) (c : ChunkCoord) : Bool :=
  decide (b.cx_min ≤ c.x) && decide (c.x ≤ b.cx_max) &&
  decide (b.cy_min ≤ c.y) && decide (c.y ≤ b.cy_max)

/-- Models the sort key comparison `sort_by_key(|c| (c.coord.y, c.coord.x))`:
lexicographic (y, x) order as a boolean comparator. -/
def chunkLe (a b : ChunkCoord) : Bool :=
  decide (a.y < b.y) || (decide (a.y = b.y) && decide (a.x ≤ b.x))

/-- Propositional form of the `(y, x)` lexicographic order. -/
def chunkLeP (a b : ChunkCoord) : Prop :=
  a.y < b.y ∨ (a.y = b.y ∧ a.x ≤ b.x)

instance : IsAntisymm ChunkCoord chunkLeP where
  antisymm a b h1 h2 := by
    cases a
    cases b
    simp only [chunkLeP] at h1 h2
    simp only [ChunkCoord.mk.injEq]
    omega

/-- Models `query_visible_rect`: scan the populated chunks, keep those inside
the expanded rectangle, and sort by `(y, x)`.  The scan order over the Rust
`HashMap` is arbitrary; the determinism theorem shows the output does not
depend on it. -/
def query_visible_rect (g : GlobalIndex) (view_min view_max : Vec2) :
    List (ChunkCoord × GlobalChunk) :=
  let b := cullBounds view_min view_max
  (g.buckets.filter (fun p => inCullRect b p.1)).mergeSort
    (fun p q => chunkLe p.1 q.1)

/-! ### Frame-stamp dedup controller (`src/map.rs`) -/

/-- Models `u32::MAX`. -/
def U32_MAX : Nat := 4294967295

/-- Models the fields of `ObjectLayer` that the stamp mechanism touches:
the object count (`objects.len()`), and the two last-seen stamp arrays.
Object payload fields (name, shape, visibility) do not affect dedup state. -/
structure ObjectLayer where
  objects_len : Nat
  seen_stamp_tiles : List Nat
  seen_stamp_debug : List Nat
deriving DecidableEq, Repr

/-- Models `Vec::resize(n, 0)`: truncate to `n` or extend with zeros. -/
def resizeZero (v : List Nat) (n : Nat) : List Nat :=
  v.take n ++ List.replicate (n - v.length) 0

/-- Models `ensure_object_layer_stamp_invariant`: resize each last-seen array
to the layer's object count when the lengths disagree, new slots defaulting
to `0`. -/
def ensure_object_layer_stamp_invariant (l : ObjectLayer) : ObjectLayer :=
  { l with
    seen_stamp_tiles :=
      if l.seen_stamp_tiles.length = l.objects_len then l.seen_stamp_tiles
      else resizeZero l.seen_stamp_tiles l.objects_len
    seen_stamp_debug :=
      if l.seen_stamp_debug.length = l.objects_len then l.seen_stamp_debug
      else resizeZero l.seen_stamp_debug l.objects_len }

/-- Models the renderer state fields of `MapRenderer`. -/
structure MapRenderer where
  debug_draw : Bool
  cull_padding : ℚ
  frame_stamp : Nat
deriving DecidableEq, Repr

/-- Models `MapRenderer::default()`: `debug_draw: false`,
`cull_padding: CHUNK_SIZE as f32`, `frame_stamp: 0`. -/
def MapRenderer.default : MapRenderer :=
  { debug_draw := false, cull_padding := 256, frame_stamp := 0 }

/-- Models the `fill(0)` reset of both last-seen arrays on stamp overflow. -/
def fillZero (l : ObjectLayer) : ObjectLayer :=
  { l with
    seen_stamp_tiles := List.replicate l.seen_stamp_tiles.length 0
    seen_stamp_debug := List.replicate l.seen_stamp_debug.length 0 }

/-- Models `MapRenderer::next_frame_stamp`: first restore the array-length
invariant of every layer, then either wrap (reset all arrays to zero, stamp
becomes 1) or increment.  Returns (returned stamp, new renderer state, new
layer states). -/
def next_frame_stamp (r : MapRenderer) (object_layers : List ObjectLayer) :
    Nat × MapRenderer × List ObjectLayer :=
  let layers := object_layers.map ensure_object_layer_stamp_invariant
  if r.frame_stamp = U32_MAX then
    (1, { r with frame_stamp := 1 }, layers.map fillZero)
  else
    (r.frame_stamp + 1, { r with frame_stamp := r.frame_stamp + 1 }, layers)

/-! ### Object draw pass with frame-stamp dedup
(`Map::draw_object_tiles_layer_from_coords`, `Map::for_each_visible_layer_bucket`) -/

/-- Models `Map::for_each_visible_layer_bucket`: walk the visible chunk
coordinates in order, skipping coordinates with no chunk and chunks with no
bucket for `bucket_layer`, yielding the visited buckets in order. -/
def for_each_visible_layer_bucket (g : GlobalIndex) (coords : List ChunkCoord)
    (bucket_layer : LayerIdx) : List (ChunkCoord × LayerBucket) :=
  coords.filterMap (fun cc =>
    match lookupA cc g.buckets with
    | none => none
    | some ch =>
      match lookupA bucket_layer ch.layers with
      | none => none
      | some b => some (cc, b))

/-- The object records visited by a draw pass, in visit order: the two nested
loops (over visited buckets, then over each bucket's `objects`) concatenate
the per-bucket record lists. -/
def passRecords (g : GlobalIndex) (coords : List ChunkCoord)
    (bucket_layer : LayerIdx) : List ObjectRec :=
  (for_each_visible_layer_bucket g coords bucket_layer).flatMap
    (fun p => p.2.objects)

/-- Models the per-record dedup body of
`Map::draw_object_tiles_layer_from_coords` run over a record sequence:
an out-of-range `object_idx` is skipped (the source's `debug_assert!` +
`continue` arm); a record whose `last_seen` entry equals the stamp is
skipped; otherwise `last_seen[object_idx]` is set to the stamp and the
object is processed (every subsequent draw step of the source is gated
behind this check-and-set).  Returns the final last-seen array and the
processed object indices in order. -/
def visitRecs (numObjects stamp : Nat) :
    List ObjectRec → List Nat → List Nat × List Nat
  | [], seen => (seen, [])
  | r :: rest, seen =>
    let idx := r.handle
    if numObjects ≤ idx then visitRecs numObjects stamp rest seen
    else if seen.getD idx 0 = stamp then visitRecs numObjects stamp rest seen
    else
      let out := visitRecs numObjects stamp rest (seen.set idx stamp)
      (out.1, idx :: out.2)

/-- A full dedup pass of `Map::draw_object_tiles_layer_from_coords` over the
visible coordinates (`numObjects` models `layer.objects.len()`, `seen` the
layer's `seen_stamp_tiles` array). -/
def draw_object_tiles_pass (g : GlobalIndex) (coords : List ChunkCoord)
    (bucket_layer : LayerIdx) (numObjects : Nat) (seen : List Nat)
    (stamp : Nat) : List Nat × List Nat :=
  visitRecs numObjects stamp (passRecords g coords bucket_layer) seen

/-- A two-chunk scenario for the C1 witness: one object (index 0) whose AABB
spans chunks (0,0) and (1,0), inserted into both buckets of layer 1 with
per-chunk relative coordinates, as the load step does. -/
def twoChunkIndex : GlobalIndex :=
  (GlobalIndex.new.insert_object 1 ⟨0, 0⟩ ⟨0, ⟨248, 32⟩⟩).insert_object 1 ⟨1, 0⟩
    ⟨0, ⟨0, 32⟩⟩

/-- A small populated index for the C4 witness: chunks (0,0) and (5,5). -/
def cullWitnessIndex : GlobalIndex :=
  ⟨[(⟨0, 0⟩, GlobalChunk.new), (⟨5, 5⟩, GlobalChunk.new)], [], 0⟩

/-! ## Helper lemmas -/

theorem truncQ_intCast (a : Int) : truncQ ((a : ℚ)) = a := by
  simp [truncQ, Rat.num_intCast, Rat.den_intCast]

theorem ediv_mul_add_emod (t : Int) :
    t.ediv CHUNK_SIZE * CHUNK_SIZE + t.emod CHUNK_SIZE = t := by
  show t / 256 * 256 + t % 256 = t
  omega

theorem truncQ_half : truncQ (1 / 2 : ℚ) = 0 := by
  have hn : ((1 : ℚ) / 2).num = 1 := by norm_num
  have hd : ((1 : ℚ) / 2).den = 2 := by norm_num
  simp only [truncQ, hn, hd]
  decide

theorem truncQ_zero : truncQ (0 : ℚ) = 0 := by
  simp [truncQ]

theorem flag_and_ne_zero {x c k : Nat} (hc : c = 2 ^ k)
    (h : x.testBit k = true) : x &&& c ≠ 0 := by
  subst hc
  intro h0
  have h1 : (x &&& 2 ^ k).testBit k = false := by
    rw [h0]; exact Nat.zero_testBit k
  rw [Nat.testBit_land, h, Nat.testBit_two_pow_self] at h1
  simp at h1

/-! ## Claim theorems -/

/-- C3 (counterexample): the claim "chunk_origin(world_to_chunk(p)) + rel(p)
reconstructs p exactly for every world position p" fails at the world
position p = (1/2, 0): the f32→i32 cast inside `world_to_chunk` and `rel`
truncates the fractional part, so the reconstruction yields (0, 0) ≠ (1/2, 0). -/
theorem c3_reconstruction_counterexample :
    Vec2.add (chunkOrigin (world_to_chunk ⟨1/2, 0⟩)) (rel ⟨1/2, 0⟩) ≠
      (⟨1/2, 0⟩ : Vec2) := by
  have he : Int.ediv 0 CHUNK_SIZE = 0 := by decide
  have hm : Int.emod 0 CHUNK_SIZE = 0 := by decide
  simp only [Vec2.add, chunkOrigin, world_to_chunk, rel, truncQ_half, truncQ_zero,
    he, hm]
  rw [Ne, Vec2.mk.injEq]
  norm_num

/-- C3 (amended): for every world position p, the reconstruction
chunk_origin(world_to_chunk(p)) + rel(p) equals p with each component
truncated toward zero by the f32→i32 cast; in particular it reconstructs p
exactly whenever both components of p are integers. -/
theorem c3_reconstruction_trunc :
    (∀ p : Vec2, Vec2.add (chunkOrigin (world_to_chunk p)) (rel p) = vtrunc p) ∧
    (∀ a b : Int,
      Vec2.add (chunkOrigin (world_to_chunk ⟨(a : ℚ), (b : ℚ)⟩))
        (rel ⟨(a : ℚ), (b : ℚ)⟩) = ⟨(a : ℚ), (b : ℚ)⟩) := by
  have main : ∀ p : Vec2,
      Vec2.add (chunkOrigin (world_to_chunk p)) (rel p) = vtrunc p := by
    intro p
    simp only [Vec2.add, chunkOrigin, world_to_chunk, rel, vtrunc]
    rw [Vec2.mk.injEq]
    constructor
    · exact_mod_cast ediv_mul_add_emod (truncQ p.x)
    · exact_mod_cast ediv_mul_add_emod (truncQ p.y)
  refine ⟨main, fun a b => ?_⟩
  rw [main ⟨(a : ℚ), (b : ℚ)⟩]
  simp [vtrunc, truncQ_intCast]

/-- C8: for every world position p (negative components included), the
chunk-relative position satisfies 0 ≤ rel(p).x < CHUNK_SIZE and
0 ≤ rel(p).y < CHUNK_SIZE. -/
theorem c8_rel_bounds (p : Vec2) :
    (0 ≤ (rel p).x ∧ (rel p).x < ((CHUNK_SIZE : Int) : ℚ)) ∧
    (0 ≤ (rel p).y ∧ (rel p).y < ((CHUNK_SIZE : Int) : ℚ)) := by
  have hpos : (0 : Int) < CHUNK_SIZE := by decide
  have hne : CHUNK_SIZE ≠ (0 : Int) := by decide
  refine ⟨⟨?_, ?_⟩, ⟨?_, ?_⟩⟩ <;> simp only [rel]
  · exact_mod_cast Int.emod_nonneg (truncQ p.x) hne
  · exact_mod_cast Int.emod_lt_of_pos (truncQ p.x) hpos
  · exact_mod_cast Int.emod_nonneg (truncQ p.y) hne
  · exact_mod_cast Int.emod_lt_of_pos (truncQ p.y) hpos

/-- C6 (counterexample): the claim's four-case rotation table asserts that
"diagonal+horizontal+vertical gives 90 degrees", but on a raw identifier with
all three flags set the code derives a rotation of π (180°), not π/2 (90°)
(rotations are in units of π here, so 90° is 1/2). -/
theorem c6_rotation_counterexample :
    (params_for_flips_gid ⟨0xE0000001⟩ 16 16).1 ≠ 1 / 2 := by
  have hh : TileId.flip_h ⟨0xE0000001⟩ = true := by decide
  have hv : TileId.flip_v ⟨0xE0000001⟩ = true := by decide
  have hd : TileId.flip_d ⟨0xE0000001⟩ = true := by decide
  simp only [params_for_flips_gid, hh, hv, hd]
  norm_num

/-- C6 (amended): flip_x = flip_h XOR flip_d and flip_y = flip_v hold for
every raw identifier, and the rotation is: 0° when the horizontal flag is
clear; 180° when horizontal, vertical and diagonal are all set; and 90° for
every other combination with the horizontal flag set (in particular
diagonal+horizontal without vertical gives 90°, and
horizontal+vertical without diagonal gives 90°). -/
theorem c6_rotation_table_amended (gid : TileId) (w h : ℚ) :
    (params_for_flips_gid gid w h).2.1 = xor gid.flip_h gid.flip_d ∧
    (params_for_flips_gid gid w h).2.2.1 = gid.flip_v ∧
    (params_for_flips_gid gid w h).1 =
      (if gid.flip_h then
        (if gid.flip_v && gid.flip_d then (1 : ℚ) else 1 / 2)
      else 0) := by
  unfold params_for_flips_gid
  cases gid.flip_h <;> cases gid.flip_v <;> cases gid.flip_d <;> simp

/-- C7: the identifier codec round-trips: for every clean identifier
i < 2^29, setting all three flag bits and decoding recovers i via clean()
with all three flags reading true; and clean() masks off exactly the three
highest-order bits of a u32 (equivalently, reduces it mod 2^29). -/
theorem c7_codec_roundtrip :
    (∀ i : Nat, i < 2 ^ 29 →
      TileId.clean ⟨i ||| FLIP_H ||| FLIP_V ||| FLIP_D⟩ = i ∧
      TileId.flip_h ⟨i ||| FLIP_H ||| FLIP_V ||| FLIP_D⟩ = true ∧
      TileId.flip_v ⟨i ||| FLIP_H ||| FLIP_V ||| FLIP_D⟩ = true ∧
      TileId.flip_d ⟨i ||| FLIP_H ||| FLIP_V ||| FLIP_D⟩ = true) ∧
    (∀ x : Nat, x < 2 ^ 32 → TileId.clean ⟨x⟩ = x % 2 ^ 29) := by
  have hmask : GID_MASK = 2 ^ 29 - 1 := by decide
  have hH : FLIP_H = 2 ^ 31 := by decide
  have hV : FLIP_V = 2 ^ 30 := by decide
  have hD : FLIP_D = 2 ^ 29 := by decide
  have hclean : ∀ x : Nat, TileId.clean ⟨x⟩ = x % 2 ^ 29 := by
    intro x
    show x &&& GID_MASK = x % 2 ^ 29
    rw [hmask]
    apply Nat.eq_of_testBit_eq
    intro j
    rw [Nat.testBit_land, Nat.testBit_two_pow_sub_one, Nat.testBit_mod_two_pow]
    exact Bool.and_comm _ _
  refine ⟨fun i hi => ?_, fun x _ => hclean x⟩
  have hbit : ∀ j : Nat,
      (i ||| FLIP_H ||| FLIP_V ||| FLIP_D).testBit j =
        (i.testBit j || decide (31 = j) || decide (30 = j) || decide (29 = j)) := by
    intro j
    rw [Nat.testBit_lor, Nat.testBit_lor, Nat.testBit_lor, hH, hV, hD,
      Nat.testBit_two_pow, Nat.testBit_two_pow, Nat.testBit_two_pow]
  refine ⟨?_, ?_, ?_, ?_⟩
  · rw [hclean]
    apply Nat.eq_of_testBit_eq
    intro j
    rw [Nat.testBit_mod_two_pow, hbit]
    rcases Nat.lt_or_ge j 29 with hj | hj
    · have e1 : (31 = j) = False := by simp; omega
      have e2 : (30 = j) = False := by simp; omega
      have e3 : (29 = j) = False := by simp; omega
      simp [hj, e1, e2, e3]
    · have hij : i.testBit j = false :=
        Nat.testBit_lt_two_pow
          (lt_of_lt_of_le hi (Nat.pow_le_pow_right (by norm_num) hj))
      have hj29 : ¬ j < 29 := by omega
      simp [hij, hj29]
  · show decide ((i ||| FLIP_H ||| FLIP_V ||| FLIP_D) &&& FLIP_H ≠ 0) = true
    rw [decide_eq_true_iff]
    apply flag_and_ne_zero hH
    rw [hbit]
    simp
  · show decide ((i ||| FLIP_H ||| FLIP_V ||| FLIP_D) &&& FLIP_V ≠ 0) = true
    rw [decide_eq_true_iff]
    apply flag_and_ne_zero hV
    rw [hbit]
    simp
  · show decide ((i ||| FLIP_H ||| FLIP_V ||| FLIP_D) &&& FLIP_D ≠ 0) = true
    rw [decide_eq_true_iff]
    apply flag_and_ne_zero hD
    rw [hbit]
    simp

/-- Witness for C7 at i = 5 and x = 7. -/
theorem c7_codec_roundtrip_witness :
    TileId.clean ⟨5 ||| FLIP_H ||| FLIP_V ||| FLIP_D⟩ = 5 ∧
    TileId.flip_h ⟨5 ||| FLIP_H ||| FLIP_V ||| FLIP_D⟩ = true ∧
    TileId.clean ⟨7⟩ = 7 % 2 ^ 29 :=
  ⟨(c7_codec_roundtrip.1 5 (by norm_num)).1,
   (c7_codec_roundtrip.1 5 (by norm_num)).2.1,
   c7_codec_roundtrip.2 7 (by norm_num)⟩

theorem length_resizeZero (v : List Nat) (n : Nat) :
    (resizeZero v n).length = n := by
  simp only [resizeZero, List.length_append, List.length_take, List.length_replicate]
  omega

theorem getD_resizeZero_new (v : List Nat) (n i : Nat) (h1 : v.length ≤ i)
    (_h2 : i < n) : (resizeZero v n).getD i 0 = 0 := by
  unfold resizeZero
  rw [List.getD_append_right _ _ _ _ (by simp; omega)]
  rw [List.getD_eq_getElem?_getD, List.getElem?_replicate]
  split <;> simp

theorem ensure_length_tiles (l : ObjectLayer) :
    (ensure_object_layer_stamp_invariant l).seen_stamp_tiles.length =
      l.objects_len := by
  simp only [ensure_object_layer_stamp_invariant]
  split
  · assumption
  · exact length_resizeZero _ _

theorem ensure_length_debug (l : ObjectLayer) :
    (ensure_object_layer_stamp_invariant l).seen_stamp_debug.length =
      l.objects_len := by
  simp only [ensure_object_layer_stamp_invariant]
  split
  · assumption
  · exact length_resizeZero _ _

theorem next_frame_stamp_wrap (r : MapRenderer) (layers : List ObjectLayer)
    (h : r.frame_stamp = U32_MAX) :
    next_frame_stamp r layers =
      (1, { r with frame_stamp := 1 },
        (layers.map ensure_object_layer_stamp_invariant).map fillZero) := by
  unfold next_frame_stamp
  rw [if_pos h]

theorem next_frame_stamp_inc (r : MapRenderer) (layers : List ObjectLayer)
    (h : r.frame_stamp ≠ U32_MAX) :
    next_frame_stamp r layers =
      (r.frame_stamp + 1, { r with frame_stamp := r.frame_stamp + 1 },
        layers.map ensure_object_layer_stamp_invariant) := by
  unfold next_frame_stamp
  rw [if_neg h]

/-- C2: the frame-stamp allocator: when the stored stamp is `u32::MAX`, both
last-seen arrays of every object layer are reset to all-zero and the returned
and stored stamp is 1; otherwise the stored stamp is incremented and the
incremented value is returned.  Consequently in the wrap case no object
retains a stale `u32::MAX` marking in either array that would suppress it
in the following pass at stamp 1. -/
theorem c2_next_frame_stamp_spec (r : MapRenderer) (layers : List ObjectLayer) :
    (r.frame_stamp = U32_MAX →
      (next_frame_stamp r layers).1 = 1 ∧
      (next_frame_stamp r layers).2.1.frame_stamp = 1 ∧
      ∀ l ∈ (next_frame_stamp r layers).2.2,
        (∀ s ∈ l.seen_stamp_tiles, s = 0) ∧ (∀ s ∈ l.seen_stamp_debug, s = 0)) ∧
    (r.frame_stamp ≠ U32_MAX →
      (next_frame_stamp r layers).1 = r.frame_stamp + 1 ∧
      (next_frame_stamp r layers).2.1.frame_stamp = r.frame_stamp + 1 ∧
      (next_frame_stamp r layers).2.2 =
        layers.map ensure_object_layer_stamp_invariant) ∧
    (r.frame_stamp = U32_MAX →
      ∀ l ∈ (next_frame_stamp r layers).2.2,
        U32_MAX ∉ l.seen_stamp_tiles ∧ U32_MAX ∉ l.seen_stamp_debug) := by
  have hzero : ∀ l ∈ (layers.map ensure_object_layer_stamp_invariant).map fillZero,
      (∀ s ∈ l.seen_stamp_tiles, s = 0) ∧ (∀ s ∈ l.seen_stamp_debug, s = 0) := by
    intro l hl
    rw [List.mem_map] at hl
    obtain ⟨l', _, rfl⟩ := hl
    constructor
    · intro s hs
      exact (List.mem_replicate.mp hs).2
    · intro s hs
      exact (List.mem_replicate.mp hs).2
  refine ⟨fun hmax => ?_, fun hne => ?_, fun hmax => ?_⟩
  · rw [next_frame_stamp_wrap r layers hmax]
    exact ⟨rfl, rfl, hzero⟩
  · rw [next_frame_stamp_inc r layers hne]
    exact ⟨rfl, rfl, rfl⟩
  · intro l hl
    rw [next_frame_stamp_wrap r layers hmax] at hl
    have h := hzero l hl
    constructor
    · intro hmem
      have := h.1 _ hmem
      simp [U32_MAX] at this
    · intro hmem
      have := h.2 _ hmem
      simp [U32_MAX] at this

/-- Witness for C2: a wrap call from stamp `u32::MAX` with one stale layer,
and an ordinary call from stamp 7. -/
theorem c2_next_frame_stamp_spec_witness :
    (next_frame_stamp ⟨false, 256, U32_MAX⟩
        [⟨2, [U32_MAX, U32_MAX], [0, 0]⟩]).1 = 1 ∧
    (next_frame_stamp ⟨false, 256, 7⟩ []).1 = 7 + 1 :=
  ⟨(c2_next_frame_stamp_spec ⟨false, 256, U32_MAX⟩
      [⟨2, [U32_MAX, U32_MAX], [0, 0]⟩]).1 rfl |>.1,
   ((c2_next_frame_stamp_spec ⟨false, 256, 7⟩ []).2.1 (by decide)).1⟩

/-- C10: the stamp allocator never issues 0: the renderer starts at stamp 0,
every call returns a nonzero stamp equal to the newly stored stamp, staying
within the u32 range, while freshly resized last-seen slots and wrap-reset
slots all default to the sentinel 0 — so the sentinel can never equal an
issued stamp and can never cause an object to be skipped as already seen. -/
theorem c10_stamp_never_zero :
    MapRenderer.default.frame_stamp = 0 ∧
    (∀ (r : MapRenderer) (layers : List ObjectLayer),
      (next_frame_stamp r layers).1 ≠ 0 ∧
      (next_frame_stamp r layers).2.1.frame_stamp = (next_frame_stamp r layers).1 ∧
      (r.frame_stamp ≤ U32_MAX → (next_frame_stamp r layers).1 ≤ U32_MAX)) ∧
    (∀ (l : ObjectLayer) (i : Nat),
      l.seen_stamp_tiles.length ≤ i → i < l.objects_len →
      (ensure_object_layer_stamp_invariant l).seen_stamp_tiles.getD i 0 = 0) ∧
    (∀ l : ObjectLayer, ∀ s ∈ (fillZero l).seen_stamp_tiles, s = 0) := by
  refine ⟨rfl, fun r layers => ?_, fun l i h1 h2 => ?_, fun l s hs => ?_⟩
  · by_cases hmax : r.frame_stamp = U32_MAX
    · rw [next_frame_stamp_wrap r layers hmax]
      exact ⟨show (1 : Nat) ≠ 0 by decide, rfl,
        fun _ => show (1 : Nat) ≤ U32_MAX by decide⟩
    · rw [next_frame_stamp_inc r layers hmax]
      refine ⟨by omega, rfl, fun hle => ?_⟩
      have : r.frame_stamp < U32_MAX := lt_of_le_of_ne hle hmax
      omega
  · unfold ensure_object_layer_stamp_invariant
    have hne : l.seen_stamp_tiles.length ≠ l.objects_len := by omega
    simp only [if_neg hne]
    exact getD_resizeZero_new _ _ _ h1 h2
  · exact (List.mem_replicate.mp hs).2

/-- Witness for C10: the very first stamp issued from the default state is 1,
and a resized slot reads 0. -/
theorem c10_stamp_never_zero_witness :
    (next_frame_stamp ⟨false, 256, 0⟩ []).1 ≠ 0 ∧
    (ensure_object_layer_stamp_invariant ⟨3, [5], [0]⟩).seen_stamp_tiles.getD 2 0
      = 0 :=
  ⟨(c10_stamp_never_zero.2.1 ⟨false, 256, 0⟩ []).1,
   c10_stamp_never_zero.2.2.1 ⟨3, [5], [0]⟩ 2 (by decide) (by decide)⟩

theorem getD_set_self (l : List Nat) (i v : Nat) (h : i < l.length) :
    (l.set i v).getD i 0 = v := by
  rw [List.getD_eq_getElem?_getD, List.getElem?_set_self h]
  rfl

theorem getD_set_ne (l : List Nat) {i j : Nat} (v : Nat) (h : i ≠ j) :
    (l.set i v).getD j 0 = l.getD j 0 := by
  rw [List.getD_eq_getElem?_getD, List.getElem?_set_ne h,
    ← List.getD_eq_getElem?_getD]

theorem mem_handle_cons {r : ObjectRec} {rest : List ObjectRec} {i : Nat} :
    i ∈ (r :: rest).map ObjectRec.handle ↔
      i = r.handle ∨ i ∈ rest.map ObjectRec.handle := by
  rw [List.map_cons, List.mem_cons]

theorem visitRecs_seen (n stamp : Nat) :
    ∀ (recs : List ObjectRec) (seen : List Nat), seen.length = n →
    ∀ i : Nat, i < n →
    (visitRecs n stamp recs seen).1.getD i 0 =
      (if i ∈ recs.map ObjectRec.handle then stamp else seen.getD i 0)
  | [], seen, _, i, _ => by simp [visitRecs]
  | r :: rest, seen, hlen, i, hi => by
    simp only [visitRecs]
    by_cases h1 : n ≤ r.handle
    · rw [if_pos h1, visitRecs_seen n stamp rest seen hlen i hi]
      have hir : ¬ i = r.handle := by omega
      rw [if_congr (mem_handle_cons.trans (or_iff_right hir)) rfl rfl]
    · rw [if_neg h1]
      by_cases h2 : seen.getD r.handle 0 = stamp
      · rw [if_pos h2, visitRecs_seen n stamp rest seen hlen i hi]
        by_cases hir : i = r.handle
        · rw [if_pos (mem_handle_cons.mpr (Or.inl hir))]
          by_cases hm : i ∈ rest.map ObjectRec.handle
          · rw [if_pos hm]
          · rw [if_neg hm, hir]
            exact h2
        · rw [if_congr (mem_handle_cons.trans (or_iff_right hir)) rfl rfl]
      · rw [if_neg h2]
        have hlen' : (seen.set r.handle stamp).length = n := by
          rw [List.length_set]; exact hlen
        show (visitRecs n stamp rest (seen.set r.handle stamp)).1.getD i 0 = _
        rw [visitRecs_seen n stamp rest _ hlen' i hi]
        by_cases hir : i = r.handle
        · rw [if_pos (mem_handle_cons.mpr (Or.inl hir))]
          have hset : (seen.set r.handle stamp).getD i 0 = stamp := by
            rw [hir]
            exact getD_set_self seen r.handle stamp (by omega)
          by_cases hm : i ∈ rest.map ObjectRec.handle
          · rw [if_pos hm]
          · rw [if_neg hm]
            exact hset
        · have hset : (seen.set r.handle stamp).getD i 0 = seen.getD i 0 :=
            getD_set_ne seen stamp (fun h => hir h.symm)
          rw [hset, if_congr (mem_handle_cons.trans (or_iff_right hir)) rfl rfl]

theorem visitRecs_count (n stamp : Nat) :
    ∀ (recs : List ObjectRec) (seen : List Nat), seen.length = n →
    ∀ i : Nat,
    (visitRecs n stamp recs seen).2.count i =
      (if i < n ∧ i ∈ recs.map ObjectRec.handle ∧ seen.getD i 0 ≠ stamp
       then 1 else 0)
  | [], seen, _, i => by simp [visitRecs]
  | r :: rest, seen, hlen, i => by
    simp only [visitRecs]
    by_cases h1 : n ≤ r.handle
    · rw [if_pos h1, visitRecs_count n stamp rest seen hlen i]
      have hcond : (i < n ∧ i ∈ (r :: rest).map ObjectRec.handle ∧
          seen.getD i 0 ≠ stamp) ↔
          (i < n ∧ i ∈ rest.map ObjectRec.handle ∧ seen.getD i 0 ≠ stamp) := by
        constructor
        · rintro ⟨ha, hb, hc⟩
          rcases mem_handle_cons.mp hb with h | h
          · exact absurd ha (by omega)
          · exact ⟨ha, h, hc⟩
        · rintro ⟨ha, hb, hc⟩
          exact ⟨ha, mem_handle_cons.mpr (Or.inr hb), hc⟩
      rw [if_congr hcond rfl rfl]
    · rw [if_neg h1]
      by_cases h2 : seen.getD r.handle 0 = stamp
      · rw [if_pos h2, visitRecs_count n stamp rest seen hlen i]
        have hcond : (i < n ∧ i ∈ (r :: rest).map ObjectRec.handle ∧
            seen.getD i 0 ≠ stamp) ↔
            (i < n ∧ i ∈ rest.map ObjectRec.handle ∧ seen.getD i 0 ≠ stamp) := by
          constructor
          · rintro ⟨ha, hb, hc⟩
            rcases mem_handle_cons.mp hb with h | h
            · rw [h] at hc
              exact absurd h2 hc
            · exact ⟨ha, h, hc⟩
          · rintro ⟨ha, hb, hc⟩
            exact ⟨ha, mem_handle_cons.mpr (Or.inr hb), hc⟩
        rw [if_congr hcond rfl rfl]
      · rw [if_neg h2]
        have hlen' : (seen.set r.handle stamp).length = n := by
          rw [List.length_set]; exact hlen
        show List.count i
            (r.handle :: (visitRecs n stamp rest (seen.set r.handle stamp)).2) = _
        rw [List.count_cons, visitRecs_count n stamp rest _ hlen' i]
        by_cases hir : i = r.handle
        · have hbeq : (r.handle == i) = true := by
            rw [hir, beq_self_eq_true]
          have hset : (seen.set r.handle stamp).getD i 0 = stamp := by
            rw [hir]
            exact getD_set_self seen r.handle stamp (by omega)
          have hleft : ¬ (i < n ∧ i ∈ rest.map ObjectRec.handle ∧
              (seen.set r.handle stamp).getD i 0 ≠ stamp) := by
            rintro ⟨_, _, hc⟩
            exact hc hset
          have hright : i < n ∧ i ∈ (r :: rest).map ObjectRec.handle ∧
              seen.getD i 0 ≠ stamp := by
            refine ⟨by omega, mem_handle_cons.mpr (Or.inl hir), ?_⟩
            rw [hir]
            exact h2
          rw [if_neg hleft, if_pos hright, if_pos hbeq]
        · have hbeq : ¬ ((r.handle == i) = true) := by
            rw [beq_iff_eq]
            exact fun h => hir h.symm
          have hset : (seen.set r.handle stamp).getD i 0 = seen.getD i 0 :=
            getD_set_ne seen stamp (fun h => hir h.symm)
          rw [hset, if_neg hbeq, Nat.add_zero]
          have hcond : (i < n ∧ i ∈ (r :: rest).map ObjectRec.handle ∧
              seen.getD i 0 ≠ stamp) ↔
              (i < n ∧ i ∈ rest.map ObjectRec.handle ∧ seen.getD i 0 ≠ stamp) := by
            constructor
            · rintro ⟨ha, hb, hc⟩
              rcases mem_handle_cons.mp hb with h | h
              · exact absurd h hir
              · exact ⟨ha, h, hc⟩
            · rintro ⟨ha, hb, hc⟩
              exact ⟨ha, mem_handle_cons.mpr (Or.inr hb), hc⟩
          rw [if_congr hcond rfl rfl]

/-- C1: in a single draw pass over any set of visible chunk coordinates with
one shared frame stamp, starting from a last-seen array in which no entry
equals the stamp, every object index reachable from the visited buckets is
processed exactly once (its processed-count is 1, and 0 for unreachable
indices), and its last-seen entry is left equal to the stamp — later
encounters of the same index from other chunks find `last_seen == stamp`
and are skipped, no matter how many chunk buckets reference the object. -/
theorem c1_object_dedup_exactly_once
    (g : GlobalIndex) (coords : List ChunkCoord) (bucket_layer : LayerIdx)
    (numObjects stamp : Nat) (seen : List Nat)
    (hlen : seen.length = numObjects)
    (hfresh : ∀ i < numObjects, seen.getD i 0 ≠ stamp) :
    (∀ i : Nat,
      (draw_object_tiles_pass g coords bucket_layer numObjects seen stamp).2.count i
        = (if i < numObjects ∧
              i ∈ (passRecords g coords bucket_layer).map ObjectRec.handle
           then 1 else 0)) ∧
    (∀ i : Nat, i < numObjects →
      (draw_object_tiles_pass g coords bucket_layer numObjects seen stamp).1.getD i 0
        = (if i ∈ (passRecords g coords bucket_layer).map ObjectRec.handle
           then stamp else seen.getD i 0)) := by
  constructor
  · intro i
    rw [draw_object_tiles_pass,
      visitRecs_count numObjects stamp (passRecords g coords bucket_layer) seen hlen i]
    by_cases hin : i < numObjects
    · have hfr := hfresh i hin
      have hcond : (i < numObjects ∧
          i ∈ (passRecords g coords bucket_layer).map ObjectRec.handle ∧
          seen.getD i 0 ≠ stamp) ↔
          (i < numObjects ∧
            i ∈ (passRecords g coords bucket_layer).map ObjectRec.handle) := by
        constructor
        · rintro ⟨a, b, _⟩
          exact ⟨a, b⟩
        · rintro ⟨a, b⟩
          exact ⟨a, b, hfr⟩
      rw [if_congr hcond rfl rfl]
    · have hc1 : ¬ (i < numObjects ∧
          i ∈ (passRecords g coords bucket_layer).map ObjectRec.handle ∧
          seen.getD i 0 ≠ stamp) := by
        rintro ⟨a, _, _⟩
        exact hin a
      have hc2 : ¬ (i < numObjects ∧
          i ∈ (passRecords g coords bucket_layer).map ObjectRec.handle) := by
        rintro ⟨a, _⟩
        exact hin a
      rw [if_neg hc1, if_neg hc2]
  · intro i hi
    rw [draw_object_tiles_pass,
      visitRecs_seen numObjects stamp (passRecords g coords bucket_layer) seen hlen i hi]

/-- Witness for C1: with the two-chunk object of `twoChunkIndex`, a pass
visiting only chunk (0,0) processes object 0 exactly once, and a pass
visiting both chunks (0,0) and (1,0) with one shared stamp also processes it
exactly once, not twice. -/
theorem c1_object_dedup_exactly_once_witness :
    (draw_object_tiles_pass twoChunkIndex [⟨0, 0⟩] 1 1 [0] 1).2.count 0 = 1 ∧
    (draw_object_tiles_pass twoChunkIndex [⟨0, 0⟩, ⟨1, 0⟩] 1 1 [0] 1).2.count 0
      = 1 :=
  ⟨((c1_object_dedup_exactly_once twoChunkIndex [⟨0, 0⟩] 1 1 1 [0] rfl
      (by decide)).1 0).trans (by decide),
   ((c1_object_dedup_exactly_once twoChunkIndex [⟨0, 0⟩, ⟨1, 0⟩] 1 1 1 [0] rfl
      (by decide)).1 0).trans (by decide)⟩

theorem chunkLe_iff (a b : ChunkCoord) : chunkLe a b = true ↔ chunkLeP a b := by
  simp [chunkLe, chunkLeP]

theorem chunkLe_trans (a b c : ChunkCoord) (h1 : chunkLe a b = true)
    (h2 : chunkLe b c = true) : chunkLe a c = true := by
  rw [chunkLe_iff] at *
  rcases h1 with h1 | ⟨h1, h1x⟩ <;> rcases h2 with h2 | ⟨h2, h2x⟩
  · exact Or.inl (lt_trans h1 h2)
  · exact Or.inl (by omega)
  · exact Or.inl (by omega)
  · exact Or.inr ⟨by omega, by omega⟩

theorem chunkLe_total (a b : ChunkCoord) :
    (chunkLe a b || chunkLe b a) = true := by
  rcases lt_trichotomy a.y b.y with h | h | h
  · simp [(chunkLe_iff a b).mpr (Or.inl h)]
  · rcases Int.le_or_lt a.x b.x with hx | hx
    · simp [(chunkLe_iff a b).mpr (Or.inr ⟨h, hx⟩)]
    · simp [(chunkLe_iff b a).mpr (Or.inr ⟨h.symm, le_of_lt hx⟩)]
  · simp [(chunkLe_iff b a).mpr (Or.inl h)]

theorem query_perm_filter (g : GlobalIndex) (vmin vmax : Vec2) :
    (query_visible_rect g vmin vmax).Perm
      (g.buckets.filter (fun p => inCullRect (cullBounds vmin vmax) p.1)) := by
  simp only [query_visible_rect]
  exact List.mergeSort_perm _ _

theorem query_sorted (g : GlobalIndex) (vmin vmax : Vec2) :
    List.Sorted chunkLeP ((query_visible_rect g vmin vmax).map Prod.fst) := by
  have hp : List.Pairwise
      (fun p q : ChunkCoord × GlobalChunk => chunkLe p.1 q.1 = true)
      (query_visible_rect g vmin vmax) := by
    simp only [query_visible_rect]
    exact List.sorted_mergeSort
      (fun p q s h1 h2 => chunkLe_trans p.1 q.1 s.1 h1 h2)
      (fun p q => chunkLe_total p.1 q.1) _
  exact List.Pairwise.map Prod.fst
    (fun p q h => (chunkLe_iff p.1 q.1).mp h) hp

/-- C4: the rectangle-driven visibility query returns exactly the populated
chunk coordinates lying within the inclusive chunk rectangle obtained from
the two corners (normalized if swapped) expanded by the 1-chunk margin; the
output is sorted by (y, x) ascending; it is identical for any two indexes
with identical contents (regardless of hash-map iteration order); and it is
empty when the rectangle contains no populated chunk. -/
theorem c4_query_visible_rect_spec (g1 g2 : GlobalIndex)
    (view_min view_max : Vec2) (hperm : g1.buckets.Perm g2.buckets) :
    (∀ c : ChunkCoord,
      c ∈ (query_visible_rect g1 view_min view_max).map Prod.fst ↔
        (c ∈ g1.buckets.map Prod.fst ∧
          inCullRect (cullBounds view_min view_max) c = true)) ∧
    List.Sorted chunkLeP
      ((query_visible_rect g1 view_min view_max).map Prod.fst) ∧
    (query_visible_rect g1 view_min view_max).map Prod.fst =
      (query_visible_rect g2 view_min view_max).map Prod.fst ∧
    ((∀ c ∈ g1.buckets.map Prod.fst,
        inCullRect (cullBounds view_min view_max) c = false) →
      query_visible_rect g1 view_min view_max = []) := by
  refine ⟨?_, query_sorted g1 view_min view_max, ?_, ?_⟩
  · intro c
    rw [List.mem_map]
    constructor
    · rintro ⟨p, hp, rfl⟩
      have hp' := (query_perm_filter g1 view_min view_max).mem_iff.mp hp
      rw [List.mem_filter] at hp'
      exact ⟨List.mem_map.mpr ⟨p, hp'.1, rfl⟩, hp'.2⟩
    · rintro ⟨hmem, hrect⟩
      obtain ⟨p, hp, rfl⟩ := List.mem_map.mp hmem
      refine ⟨p, ?_, rfl⟩
      exact (query_perm_filter g1 view_min view_max).mem_iff.mpr
        (List.mem_filter.mpr ⟨hp, hrect⟩)
  · have h1 := query_perm_filter g1 view_min view_max
    have h2 := query_perm_filter g2 view_min view_max
    have hf : (g1.buckets.filter
        (fun p => inCullRect (cullBounds view_min view_max) p.1)).Perm
        (g2.buckets.filter
          (fun p => inCullRect (cullBounds view_min view_max) p.1)) :=
      hperm.filter _
    have hq : (query_visible_rect g1 view_min view_max).Perm
        (query_visible_rect g2 view_min view_max) :=
      (h1.trans hf).trans h2.symm
    exact List.eq_of_perm_of_sorted (hq.map Prod.fst)
      (query_sorted g1 view_min view_max) (query_sorted g2 view_min view_max)
  · intro hout
    have hnil : g1.buckets.filter
        (fun p => inCullRect (cullBounds view_min view_max) p.1) = [] := by
      rw [List.filter_eq_nil_iff]
      intro p hp
      have := hout p.1 (List.mem_map.mpr ⟨p, hp, rfl⟩)
      simp [this]
    have := query_perm_filter g1 view_min view_max
    rw [hnil] at this
    exact List.Perm.eq_nil this

/-- Witness for C4: in the two-chunk index `cullWitnessIndex`, chunk (0,0)
is returned for the view rectangle (0,0)–(100,100), and a rectangle far away
from all populated chunks returns the empty list. -/
theorem c4_query_visible_rect_spec_witness :
    (⟨0, 0⟩ : ChunkCoord) ∈
      (query_visible_rect cullWitnessIndex ⟨0, 0⟩ ⟨100, 100⟩).map Prod.fst ∧
    query_visible_rect cullWitnessIndex ⟨10000, 10000⟩ ⟨10100, 10100⟩ = [] :=
  ⟨((c4_query_visible_rect_spec cullWitnessIndex cullWitnessIndex ⟨0, 0⟩
      ⟨100, 100⟩ (List.Perm.refl _)).1 ⟨0, 0⟩).mpr ⟨by decide, by decide⟩,
   (c4_query_visible_rect_spec cullWitnessIndex cullWitnessIndex
      ⟨10000, 10000⟩ ⟨10100, 10100⟩ (List.Perm.refl _)).2.2.2 (by decide)⟩

theorem length_writeRange (count : Nat) :
    ∀ (lut : List Nat) (start idx : Nat),
    (writeRange lut start count idx).length = lut.length := by
  induction count with
  | zero => intro lut start idx; rfl
  | succ c ih =>
    intro lut start idx
    show (writeRange (lut.set start idx) (start + 1) c idx).length = lut.length
    rw [ih, List.length_set]

theorem getD_writeRange_out (count : Nat) :
    ∀ (lut : List Nat) (start idx j d : Nat), j < start ∨ start + count ≤ j →
    (writeRange lut start count idx).getD j d = lut.getD j d := by
  induction count with
  | zero => intro lut start idx j d _; rfl
  | succ c ih =>
    intro lut start idx j d h
    show (writeRange (lut.set start idx) (start + 1) c idx).getD j d = _
    rw [ih _ _ _ _ _ (by omega), List.getD_eq_getElem?_getD,
      List.getElem?_set_ne (by omega), ← List.getD_eq_getElem?_getD]

theorem getD_writeRange_in (count : Nat) :
    ∀ (lut : List Nat) (start idx j d : Nat), start ≤ j → j < start + count →
    j < lut.length →
    (writeRange lut start count idx).getD j d = idx := by
  induction count with
  | zero => intro lut start idx j d h1 h2 _; omega
  | succ c ih =>
    intro lut start idx j d h1 h2 h3
    show (writeRange (lut.set start idx) (start + 1) c idx).getD j d = idx
    by_cases hj : j = start
    · rw [getD_writeRange_out c _ _ _ _ _ (by omega), hj,
        List.getD_eq_getElem?_getD, List.getElem?_set_self (by omega)]
      rfl
    · exact ih (lut.set start idx) (start + 1) idx j d (by omega) (by omega)
        (by rw [List.length_set]; omega)

theorem length_writeTilesets :
    ∀ (ts : List TilesetInfo) (lut : List Nat) (i : Nat),
    (writeTilesets lut i ts).length = lut.length
  | [], _, _ => rfl
  | t :: rest, lut, i => by
    show (writeTilesets (writeRange lut t.first_gid t.tilecount i) (i + 1)
      rest).length = _
    rw [length_writeTilesets rest _ _, length_writeRange]

theorem getD_writeTilesets_out :
    ∀ (ts : List TilesetInfo) (lut : List Nat) (i j d : Nat),
    (∀ t ∈ ts, ¬ covers t j) →
    (writeTilesets lut i ts).getD j d = lut.getD j d
  | [], _, _, _, _, _ => rfl
  | t :: rest, lut, i, j, d, h => by
    show (writeTilesets (writeRange lut t.first_gid t.tilecount i) (i + 1)
      rest).getD j d = _
    rw [getD_writeTilesets_out rest _ _ _ _
      (fun t' ht' => h t' (List.mem_cons_of_mem _ ht'))]
    have hnc := h t (List.mem_cons_self t rest)
    unfold covers at hnc
    exact getD_writeRange_out _ _ _ _ _ _ (by omega)

theorem getD_writeTilesets_in :
    ∀ (ts : List TilesetInfo) (lut : List Nat) (i j d k : Nat)
    (hk : k < ts.length), List.Pairwise tsDisjoint ts →
    covers (ts.get ⟨k, hk⟩) j → j < lut.length →
    (writeTilesets lut i ts).getD j d = i + k
  | [], _, _, _, _, k, hk, _, _, _ => absurd hk (by simp)
  | t :: rest, lut, i, j, d, 0, _, hpw, hcov, hlen => by
    rcases List.pairwise_cons.mp hpw with ⟨hd, _⟩
    show (writeTilesets (writeRange lut t.first_gid t.tilecount i) (i + 1)
      rest).getD j d = i + 0
    have hct : covers t j := hcov
    have hnone : ∀ t' ∈ rest, ¬ covers t' j := by
      intro t' ht' hc'
      have hdj := hd t' ht'
      unfold tsDisjoint at hdj
      unfold covers at hct hc'
      omega
    rw [getD_writeTilesets_out rest _ _ _ _ hnone,
      getD_writeRange_in _ _ _ _ _ _ hct.1 hct.2 hlen]
    omega
  | t :: rest, lut, i, j, d, k + 1, hk, hpw, hcov, hlen => by
    rcases List.pairwise_cons.mp hpw with ⟨_, hpw'⟩
    show (writeTilesets (writeRange lut t.first_gid t.tilecount i) (i + 1)
      rest).getD j d = i + (k + 1)
    have hk' : k < rest.length := by
      have := hk
      simp at this
      omega
    have hcov' : covers (rest.get ⟨k, hk'⟩) j := hcov
    rw [getD_writeTilesets_in rest _ (i + 1) j d k hk' hpw' hcov'
      (by rw [length_writeRange]; exact hlen)]
    omega

theorem foldl_max_init_le :
    ∀ (ts : List TilesetInfo) (acc : Nat),
    acc ≤ ts.foldl (fun m t => max m (t.first_gid + t.tilecount - 1)) acc
  | [], acc => le_refl acc
  | _ :: rest, _ => le_trans (Nat.le_max_left _ _) (foldl_max_init_le rest _)

theorem le_foldl_max_of_mem :
    ∀ (ts : List TilesetInfo) (acc : Nat) (t : TilesetInfo), t ∈ ts →
    t.first_gid + t.tilecount - 1 ≤
      ts.foldl (fun m t => max m (t.first_gid + t.tilecount - 1)) acc
  | [], _, _, h => absurd h (List.not_mem_nil _)
  | t' :: rest, acc, t, h => by
    rcases List.mem_cons.mp h with rfl | h'
    · exact le_trans (Nat.le_max_right _ _) (foldl_max_init_le rest _)
    · exact le_foldl_max_of_mem rest _ t h'

theorem lt_lut_length_of_covers {tilesets : List TilesetInfo}
    {t : TilesetInfo} {j : Nat} (hmem : t ∈ tilesets)
    (hcnt : 1 ≤ t.tilecount) (hcov : covers t j) :
    j < (buildGidLut tilesets).length := by
  have hle := le_foldl_max_of_mem tilesets 0 t hmem
  have hrep : (buildGidLut tilesets).length = maxGid tilesets + 1 := by
    unfold buildGidLut
    rw [length_writeTilesets, List.length_replicate]
  rw [hrep]
  unfold maxGid
  unfold covers at hcov
  omega

theorem getD_replicate_sentinel (n j : Nat) :
    (List.replicate n SENTINEL).getD j SENTINEL = SENTINEL := by
  rw [List.getD_eq_getElem?_getD, List.getElem?_replicate]
  split <;> rfl

theorem buildGidLut_getD_uncovered {tilesets : List TilesetInfo} {j : Nat}
    (h : ∀ t ∈ tilesets, ¬ covers t j) :
    (buildGidLut tilesets).getD j SENTINEL = SENTINEL := by
  unfold buildGidLut
  rw [getD_writeTilesets_out tilesets _ 0 j SENTINEL h, getD_replicate_sentinel]

theorem buildGidLut_getD_covered {tilesets : List TilesetInfo} {j k : Nat}
    (hk : k < tilesets.length) (hpw : List.Pairwise tsDisjoint tilesets)
    (hcnt : ∀ t ∈ tilesets, 1 ≤ t.tilecount)
    (hcov : covers (tilesets.get ⟨k, hk⟩) j) :
    (buildGidLut tilesets).getD j SENTINEL = k := by
  have hmem : tilesets.get ⟨k, hk⟩ ∈ tilesets := List.get_mem tilesets k hk
  have hj : j < (buildGidLut tilesets).length :=
    lt_lut_length_of_covers hmem (hcnt _ hmem) hcov
  unfold buildGidLut at hj
  rw [length_writeTilesets] at hj
  unfold buildGidLut
  rw [getD_writeTilesets_in tilesets _ 0 j SENTINEL k hk hpw hcov hj]
  omega

theorem ts_for_gid_from_of_bound {gid : TileId} {lut : List Nat}
    {tilesets : List TilesetInfo} (h : lut.length ≤ gid.clean) :
    ts_for_gid_from gid lut tilesets = none := by
  simp only [ts_for_gid_from]
  rw [if_pos h]

theorem ts_for_gid_from_of_sentinel {gid : TileId} {lut : List Nat}
    {tilesets : List TilesetInfo} (h1 : ¬ lut.length ≤ gid.clean)
    (h2 : lut.getD gid.clean SENTINEL = SENTINEL) :
    ts_for_gid_from gid lut tilesets = none := by
  simp only [ts_for_gid_from]
  rw [if_neg h1, if_pos h2]

theorem ts_for_gid_from_of_hit {gid : TileId} {lut : List Nat}
    {tilesets : List TilesetInfo} (h1 : ¬ lut.length ≤ gid.clean)
    (h2 : lut.getD gid.clean SENTINEL ≠ SENTINEL) {ts : TilesetInfo}
    (h3 : tilesets.get? (lut.getD gid.clean SENTINEL) = some ts) :
    ts_for_gid_from gid lut tilesets =
      some (ts, gid.clean - ts.first_gid) := by
  simp only [ts_for_gid_from]
  rw [if_neg h1, if_neg h2, h3]

/-- C5: with tilesets whose `first_gid` is at least 1, whose `tilecount` is
at least 1, whose ranges are pairwise disjoint, and whose count stays below
the `u16::MAX` sentinel, the load-time table has size `max_gid + 1`, the
resolver returns none exactly when the cleaned identifier is 0, exceeds the
table bound, or maps to the sentinel, and every identifier inside a
tileset's range `[first_gid, first_gid + tilecount)` resolves to that
tileset with `local_index = clean − first_gid`. -/
theorem c5_resolve_spec (tilesets : List TilesetInfo)
    (H1 : ∀ t ∈ tilesets, 1 ≤ t.first_gid)
    (H2 : ∀ t ∈ tilesets, 1 ≤ t.tilecount)
    (H3 : List.Pairwise tsDisjoint tilesets)
    (H4 : tilesets.length ≤ SENTINEL) :
    (buildGidLut tilesets).length = maxGid tilesets + 1 ∧
    (∀ gid : TileId,
      ts_for_gid_from gid (buildGidLut tilesets) tilesets = none ↔
        (gid.clean = 0 ∨ (buildGidLut tilesets).length ≤ gid.clean ∨
          (buildGidLut tilesets).getD gid.clean SENTINEL = SENTINEL)) ∧
    (∀ (gid : TileId) (k : Nat) (hk : k < tilesets.length),
      covers (tilesets.get ⟨k, hk⟩) gid.clean →
      ts_for_gid_from gid (buildGidLut tilesets) tilesets =
        some (tilesets.get ⟨k, hk⟩,
          gid.clean - (tilesets.get ⟨k, hk⟩).first_gid)) := by
  have hlen : (buildGidLut tilesets).length = maxGid tilesets + 1 := by
    unfold buildGidLut
    rw [length_writeTilesets, List.length_replicate]
  have hhit : ∀ (gid : TileId) (k : Nat) (hk : k < tilesets.length),
      covers (tilesets.get ⟨k, hk⟩) gid.clean →
      ts_for_gid_from gid (buildGidLut tilesets) tilesets =
        some (tilesets.get ⟨k, hk⟩,
          gid.clean - (tilesets.get ⟨k, hk⟩).first_gid) := by
    intro gid k hk hcov
    have hmem : tilesets.get ⟨k, hk⟩ ∈ tilesets := List.get_mem tilesets k hk
    have hj : gid.clean < (buildGidLut tilesets).length :=
      lt_lut_length_of_covers hmem (H2 _ hmem) hcov
    have hgd : (buildGidLut tilesets).getD gid.clean SENTINEL = k :=
      buildGidLut_getD_covered hk H3 H2 hcov
    refine ts_for_gid_from_of_hit (by omega) ?_ ?_
    · rw [hgd]
      omega
    · rw [hgd]
      exact List.get?_eq_get hk
  refine ⟨hlen, fun gid => ?_, hhit⟩
  constructor
  · intro hnone
    by_cases hb : (buildGidLut tilesets).length ≤ gid.clean
    · exact Or.inr (Or.inl hb)
    · by_cases hs : (buildGidLut tilesets).getD gid.clean SENTINEL = SENTINEL
      · exact Or.inr (Or.inr hs)
      · exfalso
        by_cases hcov : ∀ t ∈ tilesets, ¬ covers t gid.clean
        · exact hs (buildGidLut_getD_uncovered hcov)
        · push_neg at hcov
          obtain ⟨t, ht, hc⟩ := hcov
          obtain ⟨⟨k, hk⟩, rfl⟩ := List.mem_iff_get.mp ht
          rw [hhit gid k hk hc] at hnone
          exact Option.noConfusion hnone
  · rintro (h0 | hb | hs)
    · have hnc : ∀ t ∈ tilesets, ¬ covers t gid.clean := by
        intro t ht hc
        have := H1 t ht
        unfold covers at hc
        omega
      by_cases hb : (buildGidLut tilesets).length ≤ gid.clean
      · exact ts_for_gid_from_of_bound hb
      · exact ts_for_gid_from_of_sentinel hb (buildGidLut_getD_uncovered hnc)
    · exact ts_for_gid_from_of_bound hb
    · by_cases hb : (buildGidLut tilesets).length ≤ gid.clean
      · exact ts_for_gid_from_of_bound hb
      · exact ts_for_gid_from_of_sentinel hb hs

/-- Witness for C5: the table for a single tileset with first_gid = 1 and
tilecount = 4: resolve(1) and resolve(4) land in the tileset with local
indices 0 and 3, resolve(5) is unclaimed, and resolve(0) is none. -/
theorem c5_resolve_spec_witness :
    ts_for_gid_from ⟨1⟩ (buildGidLut [⟨1, 4⟩]) [⟨1, 4⟩] = some (⟨1, 4⟩, 0) ∧
    ts_for_gid_from ⟨4⟩ (buildGidLut [⟨1, 4⟩]) [⟨1, 4⟩] = some (⟨1, 4⟩, 3) ∧
    ts_for_gid_from ⟨5⟩ (buildGidLut [⟨1, 4⟩]) [⟨1, 4⟩] = none ∧
    ts_for_gid_from ⟨0⟩ (buildGidLut [⟨1, 4⟩]) [⟨1, 4⟩] = none :=
  ⟨((c5_resolve_spec [⟨1, 4⟩] (by decide) (by decide) (by decide)
      (by decide)).2.2 ⟨1⟩ 0 (by decide) (by decide)).trans (by decide),
   ((c5_resolve_spec [⟨1, 4⟩] (by decide) (by decide) (by decide)
      (by decide)).2.2 ⟨4⟩ 0 (by decide) (by decide)).trans (by decide),
   ((c5_resolve_spec [⟨1, 4⟩] (by decide) (by decide) (by decide)
      (by decide)).2.1 ⟨5⟩).mpr (Or.inr (Or.inr (by decide))),
   ((c5_resolve_spec [⟨1, 4⟩] (by decide) (by decide) (by decide)
      (by decide)).2.1 ⟨0⟩).mpr (Or.inl (by decide))⟩

theorem lookupA_updateA_self {K V : Type} [DecidableEq K] (k : K) (dflt : V)
    (f : V → V) : ∀ l : List (K × V),
    lookupA k (updateA k dflt f l) = some (f ((lookupA k l).getD dflt))
  | [] => by simp [lookupA, updateA]
  | (k', v) :: rest => by
    by_cases h : k' = k
    · subst h
      simp [lookupA, updateA]
    · simp [updateA, lookupA, h, lookupA_updateA_self k dflt f rest]

theorem lookupA_updateA_ne {K V : Type} [DecidableEq K] {k k' : K}
    (hne : k ≠ k') (dflt : V) (f : V → V) : ∀ l : List (K × V),
    lookupA k' (updateA k dflt f l) = lookupA k' l
  | [] => by simp [lookupA, updateA, hne]
  | (k'', v) :: rest => by
    by_cases h : k'' = k
    · subst h
      simp [updateA, lookupA, hne]
    · simp [updateA, lookupA, h, lookupA_updateA_ne hne dflt f rest]

theorem set_append_length {α : Type} (l : List α) (x y : α) :
    (l ++ [x]).set l.length y = l ++ [y] := by
  induction l with
  | nil => rfl
  | cons a t ih => simp [ih]

theorem currentTiles_eq (g : GlobalIndex) (cc : ChunkCoord) (layer : LayerIdx) :
    ((lookupA layer ((lookupA cc g.buckets).getD GlobalChunk.new).layers).getD
      LayerBucket.empty).tiles = currentTiles g cc layer := by
  unfold currentTiles
  cases hc : lookupA cc g.buckets with
  | none => rfl
  | some ch =>
    cases hl : lookupA layer ch.layers with
    | none => simp [hl, LayerBucket.empty, GlobalChunk.new]
    | some b => simp [hl]

theorem add_tile_eq (g : GlobalIndex) (id : TileId) (layer : LayerIdx)
    (w : Vec2) :
    g.add_tile id layer w =
      ({ buckets :=
           updateA (world_to_chunk w) GlobalChunk.new
             (fun ch =>
               ⟨updateA layer LayerBucket.empty
                 (fun b => ⟨b.tiles ++ [⟨g.next_handle, id, rel w⟩], b.objects⟩)
                 ch.layers⟩)
             g.buckets,
         handles :=
           (g.handles ++ [none]).set g.next_handle
             (some ⟨world_to_chunk w, layer,
               (currentTiles g (world_to_chunk w) layer).length⟩),
         next_handle := g.next_handle + 1 }, g.next_handle) := rfl

theorem recordHandleAt_add_tile (g : GlobalIndex) (id : TileId)
    (layer : LayerIdx) (w : Vec2) (loc : TileLoc) (h : Nat)
    (hres : recordHandleAt g loc = some h) :
    recordHandleAt (g.add_tile id layer w).1 loc = some h := by
  rw [add_tile_eq]
  by_cases hcc : loc.chunk = world_to_chunk w
  · cases hc : lookupA (world_to_chunk w) g.buckets with
    | none =>
      exfalso
      have hnone : recordHandleAt g loc = none := by
        unfold recordHandleAt
        simp only [hcc, hc]
      rw [hnone] at hres
      exact Option.noConfusion hres
    | some ch =>
      by_cases hll : loc.layer = layer
      · cases hb : lookupA layer ch.layers with
        | none =>
          exfalso
          have hnone : recordHandleAt g loc = none := by
            unfold recordHandleAt
            simp only [hcc, hc, hll, hb]
          rw [hnone] at hres
          exact Option.noConfusion hres
        | some b =>
          have hres' : (b.tiles.get? loc.index).map TileRec.handle = some h := by
            have heq : recordHandleAt g loc =
                (b.tiles.get? loc.index).map TileRec.handle := by
              unfold recordHandleAt
              simp only [hcc, hc, hll, hb]
            rw [← heq]
            exact hres
          have hlt : loc.index < b.tiles.length := by
            cases hg : b.tiles.get? loc.index with
            | none => rw [hg] at hres'; exact absurd hres' (by simp)
            | some r => exact (List.get?_eq_some.mp hg).1
          unfold recordHandleAt
          simp only [hcc, hll]
          rw [lookupA_updateA_self]
          simp only [hc, Option.getD_some]
          rw [lookupA_updateA_self]
          simp only [hb, Option.getD_some]
          rw [List.get?_append hlt]
          exact hres'
      · cases hb : lookupA loc.layer ch.layers with
        | none =>
          exfalso
          have hnone : recordHandleAt g loc = none := by
            unfold recordHandleAt
            simp only [hcc, hc, hb]
          rw [hnone] at hres
          exact Option.noConfusion hres
        | some b =>
          have hres' : (b.tiles.get? loc.index).map TileRec.handle = some h := by
            have heq : recordHandleAt g loc =
                (b.tiles.get? loc.index).map TileRec.handle := by
              unfold recordHandleAt
              simp only [hcc, hc, hb]
            rw [← heq]
            exact hres
          unfold recordHandleAt
          simp only [hcc]
          rw [lookupA_updateA_self]
          simp only [hc, Option.getD_some]
          rw [lookupA_updateA_ne (fun he => hll he.symm)]
          simp only [hb]
          exact hres'
  · unfold recordHandleAt at hres ⊢
    rw [lookupA_updateA_ne (fun he => hcc he.symm)]
    exact hres

theorem add_tile_preserves_inv (g : GlobalIndex) (id : TileId)
    (layer : LayerIdx) (w : Vec2) (hinv : HandleInv g) :
    HandleInv (g.add_tile id layer w).1 ∧
    (g.add_tile id layer w).2 = g.next_handle ∧
    (g.add_tile id layer w).1.next_handle = g.next_handle + 1 := by
  obtain ⟨hcount, hloc⟩ := hinv
  have hset : (g.handles ++ [none]).set g.next_handle
      (some ⟨world_to_chunk w, layer,
        (currentTiles g (world_to_chunk w) layer).length⟩) =
      g.handles ++ [some ⟨world_to_chunk w, layer,
        (currentTiles g (world_to_chunk w) layer).length⟩] := by
    rw [hcount]
    exact set_append_length _ _ _
  refine ⟨⟨?_, ?_⟩, rfl, rfl⟩
  · rw [add_tile_eq]
    simp only [hset, List.length_append, List.length_singleton]
    omega
  · intro h hh
    rw [add_tile_eq] at hh ⊢
    simp only [hset, List.length_append, List.length_singleton] at hh
    by_cases hold : h < g.handles.length
    · obtain ⟨loc, hdesc, hrec⟩ := hloc h hold
      refine ⟨loc, ?_, ?_⟩
      · simp only [hset]
        rw [List.getD_append _ _ _ _ hold]
        exact hdesc
      · have := recordHandleAt_add_tile g id layer w loc h hrec
        rw [add_tile_eq] at this
        exact this
    · have hh' : h = g.handles.length := by omega
      refine ⟨⟨world_to_chunk w, layer,
        (currentTiles g (world_to_chunk w) layer).length⟩, ?_, ?_⟩
      · simp only [hset, hh']
        rw [List.getD_eq_getElem?_getD, List.getElem?_concat_length]
        rfl
      · unfold recordHandleAt
        simp only [add_tile_eq]
        rw [lookupA_updateA_self]
        simp only [Option.getD_some]
        rw [lookupA_updateA_self]
        simp only [Option.getD_some]
        rw [currentTiles_eq, List.get?_concat_length]
        simp only [Option.map_some']
        rw [hh', hcount]

theorem runAddTiles_spec :
    ∀ (ops : List (TileId × LayerIdx × Vec2)) (g : GlobalIndex),
    HandleInv g →
    HandleInv (runAddTiles g ops).1 ∧
    (runAddTiles g ops).2 = List.range' g.next_handle ops.length ∧
    (runAddTiles g ops).1.next_handle = g.next_handle + ops.length
  | [], g, hinv => by
    exact ⟨hinv, rfl, rfl⟩
  | (id, layer, w) :: rest, g, hinv => by
    obtain ⟨hinv', hret, hnext⟩ := add_tile_preserves_inv g id layer w hinv
    obtain ⟨hinvR, hretR, hnextR⟩ :=
      runAddTiles_spec rest (g.add_tile id layer w).1 hinv'
    refine ⟨hinvR, ?_, ?_⟩
    · show (g.add_tile id layer w).2 ::
        (runAddTiles (g.add_tile id layer w).1 rest).2 = _
      rw [hret, hretR, hnext, List.length_cons, List.range'_succ]
    · show (runAddTiles (g.add_tile id layer w).1 rest).1.next_handle = _
      rw [hnextR, hnext, List.length_cons]
      omega

/-- C9: after any sequence of `add_tile` calls on a fresh `GlobalIndex`, the
returned handles are exactly 0, 1, …, n−1 in order (the counter strictly
increases by one per allocation, so no handle is ever returned twice), the
handle table has exactly one slot per returned handle, and the slot at each
returned handle's own index holds a location descriptor that resolves to the
tile record carrying that handle. -/
theorem c9_handle_invariant (ops : List (TileId × LayerIdx × Vec2)) :
    (runAddTiles GlobalIndex.new ops).2 = List.range ops.length ∧
    (runAddTiles GlobalIndex.new ops).2.Nodup ∧
    (runAddTiles GlobalIndex.new ops).1.handles.length = ops.length ∧
    (∀ h ∈ (runAddTiles GlobalIndex.new ops).2,
      ∃ loc : TileLoc,
        (runAddTiles GlobalIndex.new ops).1.handles.getD h none = some loc ∧
        recordHandleAt (runAddTiles GlobalIndex.new ops).1 loc = some h) := by
  have hinv0 : HandleInv GlobalIndex.new := by
    constructor
    · rfl
    · intro h hh
      exact absurd hh (by simp [GlobalIndex.new])
  obtain ⟨hinv, hret, hnext⟩ := runAddTiles_spec ops GlobalIndex.new hinv0
  have h0 : GlobalIndex.new.next_handle = 0 := rfl
  have h1 := hinv.1
  have hrange : (runAddTiles GlobalIndex.new ops).2 = List.range ops.length := by
    rw [hret, h0, ← List.range_eq_range']
  have hlen : (runAddTiles GlobalIndex.new ops).1.handles.length = ops.length := by
    omega
  refine ⟨hrange, ?_, hlen, ?_⟩
  · rw [hrange]
    exact List.nodup_range _
  · intro h hh
    rw [hrange, List.mem_range] at hh
    exact hinv.2 h (by omega)

/-- Witness for C9 on the two-insertion scenario `demoAddOps`. -/
theorem c9_handle_invariant_witness :
    (runAddTiles GlobalIndex.new demoAddOps).2 = List.range 2 ∧
    (∃ loc : TileLoc,
      (runAddTiles GlobalIndex.new demoAddOps).1.handles.getD 0 none = some loc ∧
      recordHandleAt (runAddTiles GlobalIndex.new demoAddOps).1 loc = some 0) :=
  ⟨(c9_handle_invariant demoAddOps).1,
   (c9_handle_invariant demoAddOps).2.2.2 0
     (by rw [(c9_handle_invariant demoAddOps).1]; decide)⟩

end Tiled
